import Mathlib

/-!
Shallow embedding of the mystock backend core (quote cache, watchlist
manager, portfolio valuation) and proofs about it.

Sources embedded:
- `src/backend/src/api/stocks.py` (`get_stock_quote`): the TTL quote cache.
- `src/backend/src/api/watchlist.py` (`add_to_watchlist`, `reorder_watchlist`,
  `remove_from_watchlist`, `get_stock_info`): watchlist mutations and the
  quote-to-stock-info adapter.
- `src/backend/src/api/portfolios.py` (`get_portfolio_summary`,
  `update_holding`): holding valuation and the holding update endpoint.
- `src/backend/src/schemas/portfolios.py`, `src/backend/src/schemas/watchlist.py`:
  request validation and the summary schema defaults.
- `src/backend/src/core/config.py`: configuration constants.

Conventions: Python `Decimal`/`float` amounts are embedded as `ℚ`,
timestamps as `ℤ` (seconds), `None`-able values as `Option`, raised
`HTTPException`s as `Except` errors.  Process state (the per-symbol quote
cache row) is passed explicitly.
-/

/-! ## Configuration (`src/core/config.py`) -/

/-- `STOCK_CACHE_TTL_SECONDS: int = 300` (config.py line 77). -/
def STOCK_CACHE_TTL_SECONDS : ℤ := 300

/-- `MAX_WATCHLIST_ITEMS: int = 50` (config.py line 93). -/
def MAX_WATCHLIST_ITEMS : ℕ := 50

/-- `MAX_HOLDINGS_PER_PORTFOLIO: int = 100` (config.py line 94). -/
def MAX_HOLDINGS_PER_PORTFOLIO : ℕ := 100

/-! ## Quote cache (`src/api/stocks.py`, `get_stock_quote`)

The endpoint keeps one `StockQuote` row per symbol (`updated_at` is the
fetch time); we model the row for one fixed symbol as an
`Option CacheEntry`.  The external fetch (`StockDataService.get_quote`)
returns `Option QuoteData` (`None` on any failure).  The endpoint returns
the quote payload or raises HTTP 404 (`QuoteUnavailable` in the spec's
taxonomy). -/

structure QuoteData where
  current_price : ℚ
  daily_change_pct : ℚ
  volume : Option ℤ
  deriving Repr, DecidableEq

structure CacheEntry where
  current_price : ℚ
  daily_change_pct : ℚ
  volume : Option ℤ
  updated_at : ℤ
  deriving Repr, DecidableEq

structure StockQuoteResponse where
  current_price : ℚ
  daily_change_pct : ℚ
  volume : Option ℤ
  updated_at : ℤ
  deriving Repr, DecidableEq

inductive QuoteError where
  | QuoteUnavailable
  deriving Repr, DecidableEq

/-- Response body built from a cache row (stocks.py lines 60-68 / 107-115). -/
def responseOfEntry (e : CacheEntry) : StockQuoteResponse :=
  ⟨e.current_price, e.daily_change_pct, e.volume, e.updated_at⟩

/-- The cache-freshness filter of stocks.py lines 54-57:
`StockQuote.updated_at >= datetime.utcnow() - cache_ttl`. -/
def cacheFresh (e : CacheEntry) (now : ℤ) : Bool :=
  e.updated_at ≥ now - STOCK_CACHE_TTL_SECONDS

/-- One call's observable outcome: the HTTP response (or 404 error),
whether an external fetch was issued, and the cache row afterwards. -/
structure QuoteStep where
  response : Except QuoteError StockQuoteResponse
  didFetch : Bool
  cache : Option CacheEntry
  deriving Repr

/-- `get_stock_quote` (stocks.py lines 50-115) for one symbol.
`cache` is the stored row, `now` the call time, `fetch` the result the
external source would return if consulted.  A fresh row is returned with
no fetch; otherwise the source is consulted: on failure HTTP 404 is
raised with the row untouched, on success the row is overwritten
(`updated_at := now`) and the fresh quote returned. -/
def get_stock_quote (cache : Option CacheEntry) (now : ℤ) (fetch : Option QuoteData) :
    QuoteStep :=
  match cache with
  | some e =>
    if cacheFresh e now then
      ⟨.ok (responseOfEntry e), false, some e⟩
    else
      match fetch with
      | none => ⟨.error .QuoteUnavailable, true, some e⟩
      | some q =>
        let e' : CacheEntry := ⟨q.current_price, q.daily_change_pct, q.volume, now⟩
        ⟨.ok (responseOfEntry e'), true, some e'⟩
  | none =>
    match fetch with
    | none => ⟨.error .QuoteUnavailable, true, none⟩
    | some q =>
      let e' : CacheEntry := ⟨q.current_price, q.daily_change_pct, q.volume, now⟩
      ⟨.ok (responseOfEntry e'), true, some e'⟩

/-- Replay a sequence of calls at the given times against one symbol's
cache row, counting the external fetches issued.  `oracle t` is what the
external source would return for a fetch at time `t`. -/
def runQuoteCalls (oracle : ℤ → Option QuoteData) (cache : Option CacheEntry)
    (times : List ℤ) : ℕ × Option CacheEntry :=
  times.foldl
    (fun acc t =>
      let s := get_stock_quote acc.2 t (oracle t)
      (acc.1 + (if s.didFetch then 1 else 0), s.cache))
    (0, cache)

/-! ## Watchlist (`src/api/watchlist.py`)

Each user document carries a `watchlists` array of items
`{symbol, display_order, notes?, added_at}` (models/user.py,
`WatchlistItem`).  Timestamps are seconds (`ℤ`), `display_order` is a
Python `int` (`ℤ`). -/

structure WatchlistItem where
  symbol : String
  display_order : ℤ
  notes : Option String
  added_at : ℤ
  deriving Repr, DecidableEq

inductive WatchlistError where
  | DuplicateSymbol
  | LimitExceeded
  | InvalidSymbol (symbol : String)
  | IncompleteOrder
  | NotFound
  deriving Repr, DecidableEq

/-- `add_to_watchlist` (watchlist.py lines 239-275): duplicate check, size
limit, then append with
`next_order = max([item["display_order"] ...], default=-1) + 1`. -/
def add_to_watchlist (wl : List WatchlistItem) (symbol : String)
    (notes : Option String) (now : ℤ) : Except WatchlistError (List WatchlistItem) :=
  if wl.any (fun item => item.symbol = symbol) then
    .error .DuplicateSymbol
  else if MAX_WATCHLIST_ITEMS ≤ wl.length then
    .error .LimitExceeded
  else
    let next_order := (wl.foldl (fun m item => max m item.display_order) (-1)) + 1
    .ok (wl ++ [⟨symbol, next_order, notes, now⟩])

/-- The `display_order` recorded for the deleted symbol in
`remove_from_watchlist` (watchlist.py lines 534-541): the loop overwrites
`deleted_order` at every match, so the last matching item's order wins. -/
def lastMatchOrder (wl : List WatchlistItem) (symbol : String) : Option ℤ :=
  wl.foldl (fun acc item => if item.symbol = symbol then some item.display_order else acc) none

/-- `remove_from_watchlist` (watchlist.py lines 530-559): drop every item
with the symbol (404 if none), then decrement the `display_order` of each
remaining item whose order exceeds the deleted one. -/
def remove_from_watchlist (wl : List WatchlistItem) (symbol : String) :
    Except WatchlistError (List WatchlistItem) :=
  match lastMatchOrder wl symbol with
  | none => .error .NotFound
  | some deleted_order =>
    let kept := wl.filter (fun item => ¬ item.symbol = symbol)
    .ok (kept.map (fun item =>
      if deleted_order < item.display_order then
        { item with display_order := item.display_order - 1 }
      else item))

/-- The dict comprehension `{item["symbol"]: item for item in watchlists}`
(watchlist.py line 344): keys in first-occurrence order, the value for a
repeated key being the last occurrence. -/
def itemMapEntries (wl : List WatchlistItem) : List WatchlistItem :=
  wl.foldl
    (fun acc item =>
      if acc.any (fun e => e.symbol = item.symbol) then
        acc.map (fun e => if e.symbol = item.symbol then item else e)
      else acc ++ [item])
    []

/-- The reorder loop (watchlist.py lines 362-363): for each position
`idx` in the submitted order, set that symbol's `display_order := idx`. -/
def assignOrders : List WatchlistItem → List String → ℕ → List WatchlistItem
  | entries, [], _ => entries
  | entries, s :: rest, idx =>
    assignOrders
      (entries.map (fun item =>
        if item.symbol = s then { item with display_order := (idx : ℤ) } else item))
      rest (idx + 1)

/-- `reorder_watchlist` (watchlist.py lines 340-366): build the
symbol→item map, reject the first submitted symbol absent from it
(HTTP 400, `InvalidSymbol`), reject a length mismatch with the stored
array (HTTP 400, `IncompleteOrder`), else assign positional orders and
store `list(item_map.values())`. -/
def reorder_watchlist (wl : List WatchlistItem) (symbol_order : List String) :
    Except WatchlistError (List WatchlistItem) :=
  let entries := itemMapEntries wl
  match symbol_order.find? (fun s => ¬ entries.any (fun e => e.symbol = s)) with
  | some s => .error (.InvalidSymbol s)
  | none =>
    if symbol_order.length ≠ wl.length then
      .error .IncompleteOrder
    else
      .ok (assignOrders entries symbol_order 0)

/-- `WatchlistReorderRequest` validation (schemas/watchlist.py lines
47-62): between 1 and 50 symbols, no duplicates.  Pydantic rejects the
request before the endpoint runs otherwise. -/
def validReorderRequest (symbol_order : List String) : Prop :=
  1 ≤ symbol_order.length ∧ symbol_order.length ≤ 50 ∧ symbol_order.Nodup

/-- Watchlist symbols, in stored order. -/
def wlSymbols (wl : List WatchlistItem) : List String :=
  wl.map (fun item => item.symbol)

/-- The §3 data-model invariant that symbols are unique within a user's
watchlist. -/
def symbolsNodup (wl : List WatchlistItem) : Prop :=
  (wlSymbols wl).Nodup

/-- The density invariant: the multiset of `display_order` values is
exactly `{0, 1, …, n-1}` — equivalently, sorting the entries by
`display_order` yields exactly those values, with no gaps or
duplicates. -/
def DenseOrders (wl : List WatchlistItem) : Prop :=
  (wl.map (fun item => item.display_order)).Perm
    ((List.range wl.length).map Int.ofNat)

instance (wl : List WatchlistItem) : Decidable (DenseOrders wl) := by
  unfold DenseOrders; infer_instance

instance (wl : List WatchlistItem) : Decidable (symbolsNodup wl) := by
  unfold symbolsNodup; infer_instance

/-! ## Valuation (`src/api/portfolios.py`, `get_portfolio_summary`)

Per holding (lines 269-309): `cost_basis = quantity * avg_price`; if the
resolved `current_price` is truthy (present and non-zero — Python
`if current_price:`), live figures are computed, otherwise the holding is
shown at break-even with `current_price = None` in the response. -/

structure HoldingRow where
  symbol : String
  quantity : ℚ
  avg_price : ℚ
  deriving Repr, DecidableEq

/-- The valuation fields of a `HoldingResponse`. -/
structure ValuedHolding where
  cost_basis : ℚ
  current_price : Option ℚ
  current_value : ℚ
  profit_loss : ℚ
  return_rate : ℚ
  deriving Repr, DecidableEq

/-- Python truthiness of the optional price (`if current_price:`,
portfolios.py line 281): false for `None` and for `0`. -/
def priceTruthy : Option ℚ → Bool
  | none => false
  | some p => p ≠ 0

/-- The per-holding valuation of portfolios.py lines 274-304. -/
def valueHolding (quantity avg_price : ℚ) (current_price : Option ℚ) : ValuedHolding :=
  let cost_basis := quantity * avg_price
  if priceTruthy current_price then
    let p := current_price.getD 0
    let market_value := quantity * p
    let profit_loss := market_value - cost_basis
    let return_rate := if 0 < cost_basis then profit_loss / cost_basis * 100 else 0
    ⟨cost_basis, some p, market_value, profit_loss, return_rate⟩
  else
    ⟨cost_basis, none, cost_basis, 0, 0⟩

/-- The holdings loop of `get_portfolio_summary` (lines 269-309): one
valued row per stored holding.  `quotes sym` is the `current_price`
entry of `get_stock_info sym` (`none` when the fetch failed, including
for symbols missing from `symbol_to_info`). -/
def holdingRows (holdings : List HoldingRow) (quotes : String → Option ℚ) :
    List ValuedHolding :=
  holdings.map (fun h => valueHolding h.quantity h.avg_price (quotes h.symbol))

/-- The `PortfolioSummary` schema (schemas/portfolios.py lines 132-186):
the four overall figures plus per-currency fields whose pydantic
defaults are `Decimal(0)`. -/
structure PortfolioSummary where
  total_holdings : ℕ
  total_cost_basis : ℚ
  total_current_value : ℚ
  total_profit_loss : ℚ
  total_return_rate : ℚ
  usd_cost_basis : ℚ := 0
  usd_current_value : ℚ := 0
  usd_profit_loss : ℚ := 0
  usd_return_rate : ℚ := 0
  krw_cost_basis : ℚ := 0
  krw_current_value : ℚ := 0
  krw_profit_loss : ℚ := 0
  krw_return_rate : ℚ := 0
  deriving Repr, DecidableEq

/-- The summary block built by `get_portfolio_summary` (portfolios.py
lines 232-250 for the empty case, 265-331 otherwise).  Only the five
`total_*` fields are passed to the schema constructor; every `usd_*` and
`krw_*` field keeps the schema default `0`. -/
def get_portfolio_summary (holdings : List HoldingRow) (quotes : String → Option ℚ) :
    PortfolioSummary :=
  if holdings.isEmpty then
    { total_holdings := 0, total_cost_basis := 0, total_current_value := 0
      total_profit_loss := 0, total_return_rate := 0 }
  else
    let rows := holdingRows holdings quotes
    let total_cost_basis := (rows.map (fun r => r.cost_basis)).sum
    let total_current_value := (rows.map (fun r => r.current_value)).sum
    let total_profit_loss := total_current_value - total_cost_basis
    let total_return_rate :=
      if 0 < total_cost_basis then total_profit_loss / total_cost_basis * 100 else 0
    { total_holdings := holdings.length
      total_cost_basis := total_cost_basis
      total_current_value := total_current_value
      total_profit_loss := total_profit_loss
      total_return_rate := total_return_rate }

/-- The symbol-shape heuristic the source uses for the Korean market
(stock_data_service.py line 128: `symbol.endswith(('.KS', '.KQ'))`):
presence of the market-suffix marker puts a symbol in the KRW area. -/
def isKrwSymbol (symbol : String) : Bool :=
  List.isSuffixOf ['.', 'K', 'S'] symbol.toList ||
  List.isSuffixOf ['.', 'K', 'Q'] symbol.toList

/-- Modelled from the spec (§4.5): the per-area cost-basis aggregate the
spec says the currency-area split produces for the default (USD) area —
the sum of `cost_basis` over exactly the holdings without the
market-suffix marker.  No code in `src/` computes this; it is stated
only to compare with what `get_portfolio_summary` actually returns. -/
def specUsdAreaCostBasis (holdings : List HoldingRow) : ℚ :=
  ((holdings.filter (fun h => ¬ isKrwSymbol h.symbol)).map
    (fun h => h.quantity * h.avg_price)).sum

/-! ## Holding update (`src/api/portfolios.py`, `update_holding`)

The stored holding is a raw JSON dict inside the user document; its
fields can therefore hold `null`.  `UpdateHoldingRequest`
(schemas/portfolios.py lines 118-129) makes all three fields optional. -/

structure HoldingDoc where
  id : String
  symbol : String
  quantity : Option ℤ
  avg_price : Option ℚ
  notes : Option String
  deriving Repr, DecidableEq

structure UpdateHoldingRequest where
  quantity : Option ℤ
  avg_price : Option ℚ
  notes : Option String
  deriving Repr, DecidableEq

/-- The write performed by `update_holding` (portfolios.py lines
559-563): `holding["quantity"] = request.quantity` and
`holding["avg_price"] = request.avg_price`, unconditionally; `notes` is
never written. -/
def update_holding_apply (h : HoldingDoc) (request : UpdateHoldingRequest) : HoldingDoc :=
  { h with quantity := request.quantity, avg_price := request.avg_price }

/-- `Decimal(str(x))` on an optional number (portfolios.py lines
582-583): `Decimal("None")` raises `InvalidOperation`, modelled as an
error. -/
def decimalOfOptInt : Option ℤ → Except String ℚ
  | some n => .ok (n : ℚ)
  | none => .error "InvalidOperation"

def decimalOfOptRat : Option ℚ → Except String ℚ
  | some q => .ok q
  | none => .error "InvalidOperation"

/-- The response computation of `update_holding` (portfolios.py lines
578-612), after the document write: it re-derives the valuation from the
request's raw `quantity`/`avg_price`, crashing (HTTP 500) when either is
absent. -/
def update_holding_response (request : UpdateHoldingRequest)
    (current_price : Option ℚ) : Except String ValuedHolding := do
  let quantity ← decimalOfOptInt request.quantity
  let avg_price ← decimalOfOptRat request.avg_price
  .ok (valueHolding quantity avg_price current_price)

/-! ## Theorems: quote cache -/

/-- A fresh cache row short-circuits the endpoint: cached response, no
fetch, row unchanged (stocks.py lines 59-68). -/
theorem get_stock_quote_fresh (e : CacheEntry) (now : ℤ) (fetch : Option QuoteData)
    (h : cacheFresh e now = true) :
    get_stock_quote (some e) now fetch = ⟨.ok (responseOfEntry e), false, some e⟩ := by
  simp [get_stock_quote, h]

/-- A stale (or absent) row always reaches the external fetch. -/
theorem get_stock_quote_stale_fetches (e : CacheEntry) (now : ℤ) (fetch : Option QuoteData)
    (h : cacheFresh e now = false) :
    (get_stock_quote (some e) now fetch).didFetch = true := by
  cases fetch <;> simp [get_stock_quote, h]

/-- While the cache row stays fresh for every call time, replaying calls
issues no fetch and leaves the row (and the fetch count) unchanged. -/
theorem runQuoteCalls_all_fresh (oracle : ℤ → Option QuoteData) (e : CacheEntry) :
    ∀ (times : List ℤ), (∀ t ∈ times, cacheFresh e t = true) → ∀ (n : ℕ),
      times.foldl
        (fun acc t =>
          let s := get_stock_quote acc.2 t (oracle t)
          (acc.1 + (if s.didFetch then 1 else 0), s.cache))
        (n, some e) = (n, some e) := by
  intro times
  induction times with
  | nil => intro _ n; rfl
  | cons t rest ih =>
    intro h n
    have ht : cacheFresh e t = true := h t (List.mem_cons_self t rest)
    simp only [List.foldl_cons, get_stock_quote_fresh e t (oracle t) ht]
    simpa using ih (fun u hu => h u (List.mem_cons_of_mem t hu)) n

/-- C1.  The claim asserts the §4.1 stale-fallback: with a stored entry
whose TTL has expired, a failing fetch should return the stale quote
without error.  Concretely false: the entry fetched at time `0`, read at
time `301` (TTL 300) with the fetch failing, yields HTTP 404
(`QuoteUnavailable`), not the cached quote — `get_stock_quote` filters
the cache query by freshness (stocks.py lines 54-57) and never reads a
stale row. -/
theorem c1_stale_fallback_counterexample :
    cacheFresh ⟨100, 1, none, 0⟩ 301 = false ∧
    (get_stock_quote (some ⟨100, 1, none, 0⟩) 301 none).response =
      .error .QuoteUnavailable ∧
    (get_stock_quote (some ⟨100, 1, none, 0⟩) 301 none).response ≠
      .ok (responseOfEntry ⟨100, 1, none, 0⟩) := by
  refine ⟨by decide, rfl, ?_⟩
  intro h
  have h' : (Except.error QuoteError.QuoteUnavailable : Except QuoteError StockQuoteResponse) =
      .ok (responseOfEntry ⟨100, 1, none, 0⟩) := h
  exact Except.noConfusion h' 

/-- C1 (amended).  When the external fetch fails, `get_stock_quote`
fails with `QuoteUnavailable` whenever no within-TTL cache entry exists —
even when a stale entry is stored, the stale quote is never returned;
the cached quote is returned (without fetching) only while the entry is
within the TTL. -/
theorem c1_no_stale_fallback :
    (∀ e now, cacheFresh e now = false →
      (get_stock_quote (some e) now none).response = .error .QuoteUnavailable) ∧
    (∀ now : ℤ, (get_stock_quote none now none).response = .error .QuoteUnavailable) ∧
    (∀ e now fetch, cacheFresh e now = true →
      (get_stock_quote (some e) now fetch).response = .ok (responseOfEntry e)) := by
  refine ⟨?_, ?_, ?_⟩
  · intro e now h; simp [get_stock_quote, h]
  · intro now; rfl
  · intro e now fetch h; rw [get_stock_quote_fresh e now fetch h]

/-- C1 witness: the amended statement at concrete inputs. -/
theorem c1_no_stale_fallback_witness :
    (get_stock_quote (some ⟨100, 1, none, 0⟩) 400 none).response =
      .error .QuoteUnavailable ∧
    (get_stock_quote none 400 none).response = .error .QuoteUnavailable ∧
    (get_stock_quote (some ⟨100, 1, none, 0⟩) 200 none).response =
      .ok (responseOfEntry ⟨100, 1, none, 0⟩) :=
  ⟨c1_no_stale_fallback.1 ⟨100, 1, none, 0⟩ 400 (by decide),
   c1_no_stale_fallback.2.1 400,
   c1_no_stale_fallback.2.2 ⟨100, 1, none, 0⟩ 200 none (by decide)⟩

/-- C9.  (i) A call while the stored entry is younger than the TTL
performs no external fetch and returns the cached values, leaving the
row unchanged; (ii) a call after TTL expiry performs a fetch; (iii) for a
sequence of calls starting with a successful fetch at `t0` and continuing
at times within the TTL window after `t0`, exactly one external fetch is
issued in total. -/
theorem c9_cache_ttl :
    (∀ e now fetch, now - e.updated_at < STOCK_CACHE_TTL_SECONDS →
      get_stock_quote (some e) now fetch = ⟨.ok (responseOfEntry e), false, some e⟩) ∧
    (∀ e now fetch, STOCK_CACHE_TTL_SECONDS < now - e.updated_at →
      (get_stock_quote (some e) now fetch).didFetch = true) ∧
    (∀ (oracle : ℤ → Option QuoteData) (q : QuoteData) (t0 : ℤ) (times : List ℤ),
      oracle t0 = some q →
      (∀ t ∈ times, t - t0 < STOCK_CACHE_TTL_SECONDS) →
      (runQuoteCalls oracle none (t0 :: times)).1 = 1) := by
  refine ⟨?_, ?_, ?_⟩
  · intro e now fetch h
    exact get_stock_quote_fresh e now fetch (by simp [cacheFresh]; omega)
  · intro e now fetch h
    exact get_stock_quote_stale_fetches e now fetch (by simp [cacheFresh]; omega)
  · intro oracle q t0 times hq h
    have step1 : get_stock_quote none t0 (oracle t0) =
        ⟨.ok (responseOfEntry ⟨q.current_price, q.daily_change_pct, q.volume, t0⟩),
         true, some ⟨q.current_price, q.daily_change_pct, q.volume, t0⟩⟩ := by
      rw [hq]; rfl
    have hfresh : ∀ t ∈ times,
        cacheFresh ⟨q.current_price, q.daily_change_pct, q.volume, t0⟩ t = true := by
      intro t ht
      have := h t ht
      simp [cacheFresh]; omega
    have hrest := runQuoteCalls_all_fresh oracle
      ⟨q.current_price, q.daily_change_pct, q.volume, t0⟩ times hfresh 1
    have expand : runQuoteCalls oracle none (t0 :: times) =
        times.foldl
          (fun acc t =>
            let s := get_stock_quote acc.2 t (oracle t)
            (acc.1 + (if s.didFetch then 1 else 0), s.cache))
          (1, some ⟨q.current_price, q.daily_change_pct, q.volume, t0⟩) := by
      simp only [runQuoteCalls, List.foldl_cons, step1]
      norm_num
    rw [expand, hrest]

/-! ## Theorems: valuation -/

/-- With a truthy (present, non-zero) price, `valueHolding` takes the
live branch of portfolios.py lines 281-286. -/
theorem valueHolding_truthy (quantity avg_price p : ℚ) (hp : p ≠ 0) :
    valueHolding quantity avg_price (some p) =
      ⟨quantity * avg_price, some p, quantity * p,
       quantity * p - quantity * avg_price,
       if 0 < quantity * avg_price then
         (quantity * p - quantity * avg_price) / (quantity * avg_price) * 100
       else 0⟩ := by
  simp [valueHolding, priceTruthy, hp]

/-- C7.  For a holding with an available (truthy) quote price the
valuation computes `cost_basis = quantity * avg_price`,
`current_value = quantity * price`,
`profit_loss = current_value - cost_basis` and
`return_rate = profit_loss / cost_basis * 100` (0 when the cost basis is
0); in particular quantity 10, average price 175.50 and quote price
180.00 give 1755.00, 1800.00, 45.00 and a return rate within 0.01 of
2.56. -/
theorem c7_valuation_correctness :
    (∀ quantity avg_price p : ℚ, p ≠ 0 →
      (valueHolding quantity avg_price (some p)).cost_basis = quantity * avg_price ∧
      (valueHolding quantity avg_price (some p)).current_value = quantity * p ∧
      (valueHolding quantity avg_price (some p)).profit_loss =
        quantity * p - quantity * avg_price ∧
      (0 < quantity * avg_price →
        (valueHolding quantity avg_price (some p)).return_rate =
          (quantity * p - quantity * avg_price) / (quantity * avg_price) * 100) ∧
      (quantity * avg_price = 0 →
        (valueHolding quantity avg_price (some p)).return_rate = 0)) ∧
    ((valueHolding 10 (351/2) (some 180)).cost_basis = 1755 ∧
     (valueHolding 10 (351/2) (some 180)).current_value = 1800 ∧
     (valueHolding 10 (351/2) (some 180)).profit_loss = 45 ∧
     |(valueHolding 10 (351/2) (some 180)).return_rate - 256/100| < 1/100) := by
  constructor
  · intro quantity avg_price p hp
    rw [valueHolding_truthy quantity avg_price p hp]
    refine ⟨rfl, rfl, rfl, ?_, ?_⟩
    · intro hcb; simp [if_pos hcb]
    · intro hcb; simp [hcb]
  · have hv : valueHolding 10 (351/2) (some 180) = ⟨1755, some 180, 1800, 45, 100/39⟩ := by
      rw [valueHolding_truthy 10 (351/2) 180 (by norm_num)]
      norm_num
    rw [hv]
    refine ⟨rfl, rfl, rfl, by rw [abs_lt]; constructor <;> norm_num⟩

/-- C7 witness: the universally quantified part instantiated at the
claim's own example. -/
theorem c7_valuation_correctness_witness :
    (valueHolding 10 (351/2) (some 180)).cost_basis = 10 * (351/2 : ℚ) ∧
    (valueHolding 10 (351/2) (some 180)).current_value = 10 * (180 : ℚ) ∧
    (0 < (10 : ℚ) * (351/2) →
      (valueHolding 10 (351/2) (some 180)).return_rate =
        (10 * 180 - 10 * (351/2)) / (10 * (351/2)) * 100) :=
  ⟨(c7_valuation_correctness.1 10 (351/2) 180 (by norm_num)).1,
   (c7_valuation_correctness.1 10 (351/2) 180 (by norm_num)).2.1,
   (c7_valuation_correctness.1 10 (351/2) 180 (by norm_num)).2.2.2.1⟩

/-- C8.  A holding whose symbol resolves to no quote is reported at
break-even (`current_value = cost_basis`, `profit_loss = 0`,
`return_rate = 0`), and the summary read is total: every holding yields
a row regardless of which quotes are missing — a per-symbol quote
failure never fails the request. -/
theorem c8_degradation :
    (∀ (holdings : List HoldingRow) (quotes : String → Option ℚ),
      (holdingRows holdings quotes).length = holdings.length) ∧
    (∀ (h : HoldingRow) (quotes : String → Option ℚ), quotes h.symbol = none →
      valueHolding h.quantity h.avg_price (quotes h.symbol) =
        ⟨h.quantity * h.avg_price, none, h.quantity * h.avg_price, 0, 0⟩) := by
  constructor
  · intro holdings quotes; simp [holdingRows]
  · intro h quotes hq; rw [hq]; rfl

/-- C8 witness: a two-holding portfolio where the second symbol's quote
is missing still yields two rows, the degraded one at break-even. -/
theorem c8_degradation_witness :
    (holdingRows [⟨"AAPL", 10, 351/2⟩, ⟨"MSFT", 2, 100⟩]
        (fun s => if s = "AAPL" then some 180 else none)).length = 2 ∧
    valueHolding (2 : ℚ) (100 : ℚ)
        ((fun s => if s = "AAPL" then some 180 else none) "MSFT") =
      ⟨2 * 100, none, 2 * 100, 0, 0⟩ :=
  ⟨c8_degradation.1 [⟨"AAPL", 10, 351/2⟩, ⟨"MSFT", 2, 100⟩] _,
   c8_degradation.2 ⟨"MSFT", 2, 100⟩ (fun s => if s = "AAPL" then some 180 else none)
     (by decide)⟩

/-- C10.  At the valuation interface a fetched quote whose price is 0 is
treated identically to an absent quote — the response's `current_price`
is `none` and the holding is valued at break-even — because availability
is the Python truthiness test `if current_price:`. -/
theorem c10_zero_price_like_absent :
    ∀ quantity avg_price : ℚ,
      valueHolding quantity avg_price (some 0) = valueHolding quantity avg_price none ∧
      (valueHolding quantity avg_price (some 0)).current_price = none ∧
      (valueHolding quantity avg_price (some 0)).current_value = quantity * avg_price ∧
      (valueHolding quantity avg_price (some 0)).profit_loss = 0 ∧
      (valueHolding quantity avg_price (some 0)).return_rate = 0 := by
  intro quantity avg_price
  exact ⟨rfl, rfl, rfl, rfl, rfl⟩

/-- C2.  The claim says the summary's `usd_*`/`krw_*` figures equal the
four aggregates over the holdings of each currency area.  Concretely
false: a single USD-area holding (`AAPL`, quantity 10, average price
175.50) has a USD-area cost-basis aggregate of 1755, yet the summary's
`usd_cost_basis` is 0 — `get_portfolio_summary` never fills the
per-currency fields. -/
theorem c2_currency_split_counterexample :
    isKrwSymbol "AAPL" = false ∧
    specUsdAreaCostBasis [⟨"AAPL", 10, 351/2⟩] = 1755 ∧
    (get_portfolio_summary [⟨"AAPL", 10, 351/2⟩]
      (fun s => if s = "AAPL" then some 180 else none)).usd_cost_basis = 0 ∧
    (1755 : ℚ) ≠ 0 := by
  refine ⟨by decide, ?_, rfl, by norm_num⟩
  have hk : isKrwSymbol "AAPL" = false := by decide
  simp [specUsdAreaCostBasis, hk]
  norm_num

/-- C2 (amended).  `get_portfolio_summary` computes only the four
overall aggregates; every per-currency field (`usd_*` and `krw_*`) of
the returned summary is the schema default 0, for all holdings and
quote assignments — the per-area split is not computed. -/
theorem c2_currency_fields_always_zero :
    ∀ (holdings : List HoldingRow) (quotes : String → Option ℚ),
      (get_portfolio_summary holdings quotes).usd_cost_basis = 0 ∧
      (get_portfolio_summary holdings quotes).usd_current_value = 0 ∧
      (get_portfolio_summary holdings quotes).usd_profit_loss = 0 ∧
      (get_portfolio_summary holdings quotes).usd_return_rate = 0 ∧
      (get_portfolio_summary holdings quotes).krw_cost_basis = 0 ∧
      (get_portfolio_summary holdings quotes).krw_current_value = 0 ∧
      (get_portfolio_summary holdings quotes).krw_profit_loss = 0 ∧
      (get_portfolio_summary holdings quotes).krw_return_rate = 0 := by
  intro holdings quotes
  unfold get_portfolio_summary
  by_cases h : holdings.isEmpty <;> simp [h]

/-- C4.  The claim says `update_holding` rejects an all-empty update with
`NoFieldsProvided` and leaves unsupplied fields unchanged.  The code
instead overwrites `quantity` and `avg_price` with the request's raw
values unconditionally (null when omitted), never applies `notes`, and
its response computation fails on the nulls: a notes-only update nulls
both numeric fields in the stored document, and a quantity-only update
nulls `avg_price`. -/
theorem c4_update_holding_overwrites :
    update_holding_apply ⟨"h1", "AAPL", some 10, some (351/2), some "keep"⟩
        ⟨none, none, some "new note"⟩ =
      ⟨"h1", "AAPL", none, none, some "keep"⟩ ∧
    update_holding_response ⟨none, none, some "new note"⟩ (some 180) =
      .error "InvalidOperation" ∧
    update_holding_apply ⟨"h1", "AAPL", some 10, some (351/2), some "keep"⟩
        ⟨some 15, none, none⟩ =
      ⟨"h1", "AAPL", some 15, none, some "keep"⟩ := by
  exact ⟨rfl, rfl, rfl⟩

/-- C9 witness: the three parts at concrete inputs — a fresh hit at
`t = 200`, a fetch after expiry at `t = 400`, and a single fetch for four
calls inside one TTL window. -/
theorem c9_cache_ttl_witness :
    get_stock_quote (some ⟨100, 1, none, 0⟩) 200 none =
      ⟨.ok (responseOfEntry ⟨100, 1, none, 0⟩), false, some ⟨100, 1, none, 0⟩⟩ ∧
    (get_stock_quote (some ⟨100, 1, none, 0⟩) 400 none).didFetch = true ∧
    (runQuoteCalls (fun t => if t = 0 then some ⟨100, 1, none⟩ else none) none
      [0, 10, 100, 299]).1 = 1 :=
  ⟨c9_cache_ttl.1 ⟨100, 1, none, 0⟩ 200 none (by decide),
   c9_cache_ttl.2.1 ⟨100, 1, none, 0⟩ 400 none (by decide),
   c9_cache_ttl.2.2 (fun t => if t = 0 then some ⟨100, 1, none⟩ else none)
     ⟨100, 1, none⟩ 0 [10, 100, 299] rfl (by decide)⟩

/-! ## Watchlist helper lemmas -/

/-- `deleted_order` is untouched by items with other symbols. -/
theorem lastMatchOrder_no_match (s : String) :
    ∀ (wl : List WatchlistItem) (acc : Option ℤ), (∀ j ∈ wl, j.symbol ≠ s) →
      wl.foldl (fun acc item =>
        if item.symbol = s then some item.display_order else acc) acc = acc := by
  intro wl
  induction wl with
  | nil => intro acc _; rfl
  | cons i rest ih =>
    intro acc h
    have hi : i.symbol ≠ s := h i (List.mem_cons_self i rest)
    simp only [List.foldl_cons, if_neg hi]
    exact ih acc (fun j hj => h j (List.mem_cons_of_mem i hj))

/-- With unique symbols, `deleted_order` is the order of the one item
carrying the symbol. -/
theorem lastMatchOrder_of_mem (wl : List WatchlistItem) (x : WatchlistItem)
    (hnd : symbolsNodup wl) (hx : x ∈ wl) :
    lastMatchOrder wl x.symbol = some x.display_order := by
  induction wl with
  | nil => cases hx
  | cons i rest ih =>
    have hnd' : (wlSymbols rest).Nodup ∧ i.symbol ∉ wlSymbols rest := by
      have := hnd
      simp only [symbolsNodup, wlSymbols, List.map_cons, List.nodup_cons] at this
      exact ⟨this.2, this.1⟩
    rcases List.mem_cons.mp hx with hxi | hxr
    · subst hxi
      have hrest : ∀ j ∈ rest, j.symbol ≠ x.symbol := by
        intro j hj hcon
        exact hnd'.2 (hcon ▸ List.mem_map_of_mem (fun it => it.symbol) hj)
      simp only [lastMatchOrder, List.foldl_cons, if_pos rfl]
      exact lastMatchOrder_no_match x.symbol rest (some x.display_order) hrest
    · have hne : i.symbol ≠ x.symbol := by
        intro hcon
        exact hnd'.2 (hcon ▸ List.mem_map_of_mem (fun it => it.symbol) hxr)
      simp only [lastMatchOrder, List.foldl_cons, if_neg hne]
      exact ih hnd'.1 hxr

/-- `deleted_order = some k` exhibits a matching stored item. -/
theorem lastMatchOrder_some (wl : List WatchlistItem) (s : String) (k : ℤ)
    (h : lastMatchOrder wl s = some k) :
    ∃ x ∈ wl, x.symbol = s ∧ x.display_order = k := by
  have aux : ∀ (l : List WatchlistItem) (acc : Option ℤ),
      l.foldl (fun acc item =>
        if item.symbol = s then some item.display_order else acc) acc = some k →
      (∃ x ∈ l, x.symbol = s ∧ x.display_order = k) ∨ acc = some k := by
    intro l
    induction l with
    | nil => intro acc h'; exact Or.inr h'
    | cons i rest ih =>
      intro acc h'
      simp only [List.foldl_cons] at h'
      by_cases hi : i.symbol = s
      · rw [if_pos hi] at h'
        rcases ih (some i.display_order) h' with ⟨x, hx, hxs, hxk⟩ | hacc
        · exact Or.inl ⟨x, List.mem_cons_of_mem i hx, hxs, hxk⟩
        · exact Or.inl ⟨i, List.mem_cons_self i rest, hi, (Option.some_inj.mp hacc)⟩
      · rw [if_neg hi] at h'
        rcases ih acc h' with ⟨x, hx, hxs, hxk⟩ | hacc
        · exact Or.inl ⟨x, List.mem_cons_of_mem i hx, hxs, hxk⟩
        · exact Or.inr hacc
  rcases aux wl none h with hex | hcon
  · exact hex
  · cases hcon

/-- With unique symbols, filtering for a stored item's symbol yields
exactly that item. -/
theorem filter_eq_singleton_of_nodup (wl : List WatchlistItem) (x : WatchlistItem)
    (hnd : symbolsNodup wl) (hx : x ∈ wl) :
    wl.filter (fun i => i.symbol = x.symbol) = [x] := by
  induction wl with
  | nil => cases hx
  | cons i rest ih =>
    have hnd' : (wlSymbols rest).Nodup ∧ i.symbol ∉ wlSymbols rest := by
      have := hnd
      simp only [symbolsNodup, wlSymbols, List.map_cons, List.nodup_cons] at this
      exact ⟨this.2, this.1⟩
    rcases List.mem_cons.mp hx with hxi | hxr
    · subst hxi
      have hrest : rest.filter (fun i => i.symbol = x.symbol) = [] := by
        rw [List.filter_eq_nil_iff]
        intro j hj
        simp only [decide_eq_true_eq]
        intro hcon
        exact hnd'.2 (hcon ▸ List.mem_map_of_mem (fun it => it.symbol) hj)
      simp [List.filter_cons, hrest]
    · have hne : i.symbol ≠ x.symbol := by
        intro hcon
        exact hnd'.2 (hcon ▸ List.mem_map_of_mem (fun it => it.symbol) hxr)
      simp only [List.filter_cons, decide_eq_true_eq, if_neg hne]
      exact ih hnd'.1 hxr

/-- With unique symbols, deleting a stored item's symbol keeps a
permutation of the other items. -/
theorem kept_perm (wl : List WatchlistItem) (x : WatchlistItem)
    (hnd : symbolsNodup wl) (hx : x ∈ wl) :
    (x :: wl.filter (fun i => ¬ i.symbol = x.symbol)).Perm wl := by
  have hfilters := List.filter_append_perm (fun i => i.symbol = x.symbol) wl
  rw [filter_eq_singleton_of_nodup wl x hnd hx] at hfilters
  have hfun : (fun i => !(decide (i.symbol = x.symbol))) =
      (fun i : WatchlistItem => decide (¬ i.symbol = x.symbol)) := by
    funext i
    simp [decide_not]
  rw [hfun] at hfilters
  simpa using hfilters

/-- Orders of a dense watchlist fold to `n - 1` under `max` starting
from `-1` (the `max(..., default=-1)` of watchlist.py line 257). -/
theorem foldl_max_of_dense (wl : List WatchlistItem) (hd : DenseOrders wl) :
    wl.foldl (fun m item => max m item.display_order) (-1) = (wl.length : ℤ) - 1 := by
  have h1 : wl.foldl (fun m item => max m item.display_order) (-1) =
      (wl.map (fun item => item.display_order)).foldl max (-1) := by
    rw [List.foldl_map]
  have hcomm : ∀ x ∈ wl.map (fun item => item.display_order),
      ∀ y ∈ wl.map (fun item => item.display_order),
      ∀ (z : ℤ), max (max z x) y = max (max z y) x := by
    intro x _ y _ z
    exact sup_right_comm z x y
  have h2 := (hd.foldl_eq' hcomm (-1))
  have h3 : ∀ (n : ℕ), ((List.range n).map Int.ofNat).foldl max (-1) = (n : ℤ) - 1 := by
    intro n
    induction n with
    | zero => rfl
    | succ m ih =>
      rw [List.range_succ, List.map_append, List.foldl_append, ih]
      simp only [List.map_cons, List.map_nil, List.foldl_cons, List.foldl_nil,
        Int.ofNat_eq_coe]
      rw [max_eq_right (by omega)]
      push_cast
      ring
  rw [h1, h2, h3]

/-- Erasing `k` from `{0, …, n-1}` and decrementing the values above `k`
gives `{0, …, n-2}`. -/
theorem erase_decrement_range (n k : ℕ) (hk : k < n) :
    ((((List.range n).map Int.ofNat).erase (Int.ofNat k)).map
      (fun o => if Int.ofNat k < o then o - 1 else o)) =
    (List.range (n - 1)).map Int.ofNat := by
  obtain ⟨m, rfl⟩ : ∃ m, n = k + 1 + m := ⟨n - k - 1, by omega⟩
  have hsplit : List.range (k + 1 + m) =
      (List.range k ++ [k]) ++ (List.range m).map (fun j => k + 1 + j) := by
    rw [List.range_add, List.range_succ]
  rw [hsplit]
  have hmaps : ((List.range k ++ [k]) ++ (List.range m).map (fun j => k + 1 + j)).map
      Int.ofNat =
      (List.range k).map Int.ofNat ++
      ([Int.ofNat k] ++ (List.range m).map (fun j => Int.ofNat (k + 1 + j))) := by
    simp [List.map_append, List.map_map, Function.comp]
  rw [hmaps]
  have hke : ((List.range k).map Int.ofNat ++
      ([Int.ofNat k] ++ (List.range m).map (fun j => Int.ofNat (k + 1 + j)))).erase
        (Int.ofNat k) =
      (List.range k).map Int.ofNat ++
      (List.range m).map (fun j => Int.ofNat (k + 1 + j)) := by
    rw [List.erase_append_right]
    · rw [List.singleton_append, List.erase_cons_head]
    · simp only [List.mem_map, List.mem_range]
      rintro ⟨j, hj, hcast⟩
      simp only [Int.ofNat_eq_coe] at hcast
      omega
  rw [hke, List.map_append, List.map_map, List.map_map]
  have hleft : (List.range k).map
      ((fun o => if Int.ofNat k < o then o - 1 else o) ∘ Int.ofNat) =
      (List.range k).map Int.ofNat := by
    apply List.map_congr_left
    intro j hj
    have hjk : j < k := List.mem_range.mp hj
    simp only [Function.comp_apply, Int.ofNat_eq_coe]
    rw [if_neg (by omega)]
  have hright : (List.range m).map
      ((fun o => if Int.ofNat k < o then o - 1 else o) ∘ fun j => Int.ofNat (k + 1 + j)) =
      (List.range m).map (fun j => Int.ofNat (k + j)) := by
    apply List.map_congr_left
    intro j _
    simp only [Function.comp_apply, Int.ofNat_eq_coe]
    rw [if_pos (by omega)]
    push_cast
    ring
  rw [hleft, hright]
  have htarget : k + 1 + m - 1 = k + m := by omega
  rw [htarget, List.range_add, List.map_append, List.map_map]
  rfl

/-- With unique symbols the symbol→item dict enumerates the stored
array unchanged. -/
theorem itemMapEntries_eq_self (wl : List WatchlistItem) (hnd : symbolsNodup wl) :
    itemMapEntries wl = wl := by
  have aux : ∀ (l acc : List WatchlistItem), (wlSymbols l).Nodup →
      (∀ i ∈ l, acc.any (fun e => e.symbol = i.symbol) = false) →
      l.foldl
        (fun acc item =>
          if acc.any (fun e => e.symbol = item.symbol) then
            acc.map (fun e => if e.symbol = item.symbol then item else e)
          else acc ++ [item])
        acc = acc ++ l := by
    intro l
    induction l with
    | nil => intro acc _ _; simp
    | cons i rest ih =>
      intro acc hnd' hacc
      have hnotin : acc.any (fun e => e.symbol = i.symbol) = false :=
        hacc i (List.mem_cons_self i rest)
      simp only [List.foldl_cons, hnotin, Bool.false_eq_true, if_false]
      have hndrest : (wlSymbols rest).Nodup := by
        simp only [wlSymbols, List.map_cons, List.nodup_cons] at hnd'
        exact hnd'.2
      have hhead : i.symbol ∉ wlSymbols rest := by
        simp only [wlSymbols, List.map_cons, List.nodup_cons] at hnd'
        exact hnd'.1
      have hacc' : ∀ j ∈ rest, (acc ++ [i]).any (fun e => e.symbol = j.symbol) = false := by
        intro j hj
        rw [List.any_append]
        have h1 : acc.any (fun e => e.symbol = j.symbol) = false :=
          hacc j (List.mem_cons_of_mem i hj)
        have h2 : [i].any (fun e => e.symbol = j.symbol) = false := by
          simp only [List.any_cons, List.any_nil, Bool.or_false, decide_eq_false_iff_not]
          intro hcon
          exact hhead (hcon ▸ List.mem_map_of_mem (fun it => it.symbol) hj)
        rw [h1, h2]
        rfl
      rw [ih (acc ++ [i]) hndrest hacc']
      simp
  have := aux wl [] hnd (by intro i _; rfl)
  simpa [itemMapEntries] using this

/-- The reorder loop gives every entry whose symbol occurs in the
submitted order the (start-offset) position of that symbol, and leaves
other entries alone — provided the submitted symbols are unique
(guaranteed by `WatchlistReorderRequest` validation). -/
theorem assignOrders_eq_map (S : List String) (hS : S.Nodup) :
    ∀ (entries : List WatchlistItem) (idx : ℕ),
      assignOrders entries S idx =
        entries.map (fun i =>
          if i.symbol ∈ S then
            { i with display_order := Int.ofNat (idx + S.indexOf i.symbol) }
          else i) := by
  induction S with
  | nil =>
    intro entries idx
    simp only [assignOrders, List.not_mem_nil, if_false]
    exact (List.map_id' entries).symm
  | cons s rest ih =>
    intro entries idx
    have hrest : rest.Nodup := (List.nodup_cons.mp hS).2
    have hs : s ∉ rest := (List.nodup_cons.mp hS).1
    simp only [assignOrders]
    rw [ih hrest _ (idx + 1), List.map_map]
    apply List.map_congr_left
    intro i _
    simp only [Function.comp_apply]
    by_cases hi : i.symbol = s
    · rw [if_pos hi]
      have hnotrest : ¬ s ∈ rest := hs
      simp only [hi, hnotrest, if_false, List.mem_cons, true_or, if_true]
      rw [List.indexOf_cons_self]
      rfl
    · rw [if_neg hi]
      by_cases hmem : i.symbol ∈ rest
      · rw [if_pos hmem, if_pos (List.mem_cons.mpr (Or.inr hmem))]
        rw [List.indexOf_cons_ne _ (fun hcon => hi hcon.symm)]
        have : idx + 1 + rest.indexOf i.symbol = idx + (rest.indexOf i.symbol).succ := by
          omega
        rw [this]
      · rw [if_neg hmem, if_neg (by
          intro hcon
          rcases List.mem_cons.mp hcon with h1 | h2
          · exact hi h1
          · exact hmem h2)]

/-- Indexing a duplicate-free list by its own elements enumerates
`0, …, n-1` in order. -/
theorem map_indexOf_self (S : List String) (hS : S.Nodup) :
    S.map (fun s => S.indexOf s) = List.range S.length := by
  induction S with
  | nil => rfl
  | cons s rest ih =>
    have hrest : rest.Nodup := (List.nodup_cons.mp hS).2
    have hs : s ∉ rest := (List.nodup_cons.mp hS).1
    simp only [List.map_cons, List.indexOf_cons_self, List.length_cons]
    rw [List.range_succ_eq_map]
    congr 1
    have hstep : rest.map (fun r => (s :: rest).indexOf r) =
        rest.map (fun r => (rest.indexOf r).succ) := by
      apply List.map_congr_left
      intro r hr
      have hrs : s ≠ r := fun hcon => hs (hcon ▸ hr)
      rw [List.indexOf_cons_ne _ hrs]
    rw [hstep, ← ih hrest, List.map_map]
    rfl

/-- Symbol membership via the stored array's `any` check. -/
theorem any_symbol_iff (wl : List WatchlistItem) (s : String) :
    (wl.any (fun e => e.symbol = s) = true) ↔ s ∈ wlSymbols wl := by
  simp only [List.any_eq_true, decide_eq_true_eq, wlSymbols, List.mem_map]

/-- C3.  The claim says reorder fails with `IncompleteOrder` iff
`set(S) ≠ set(current symbols)`.  Concretely false: with watchlist
`[AAPL]` and submitted order `[MSFT]` the symbol sets differ, yet the
endpoint fails with `InvalidSymbol "MSFT"` (the per-symbol membership
check at watchlist.py lines 347-352 fires first), not
`IncompleteOrder`. -/
theorem c3_incomplete_order_counterexample :
    reorder_watchlist [⟨"AAPL", 0, none, 0⟩] ["MSFT"] =
      .error (.InvalidSymbol "MSFT") ∧
    reorder_watchlist [⟨"AAPL", 0, none, 0⟩] ["MSFT"] ≠ .error .IncompleteOrder ∧
    "MSFT" ∈ (["MSFT"] : List String) ∧
    "MSFT" ∉ wlSymbols [⟨"AAPL", 0, none, 0⟩] := by
  refine ⟨rfl, ?_, by decide, by decide⟩
  intro h
  have h' : (Except.error (WatchlistError.InvalidSymbol "MSFT") :
      Except WatchlistError (List WatchlistItem)) = .error .IncompleteOrder := h
  injection h' with h''
  exact WatchlistError.noConfusion h''

/-- C3 (amended).  For a valid watchlist (unique symbols) and a
duplicate-free submitted order `S` (enforced by
`WatchlistReorderRequest`), `reorder_watchlist` fails with
`IncompleteOrder` iff every submitted symbol is present in the watchlist
but `S` has a different length than the watchlist (i.e. `S` is a proper
subset of the stored symbols); a submitted symbol absent from the
watchlist fails with `InvalidSymbol` instead. -/
theorem c3_reorder_errors (wl : List WatchlistItem) (S : List String)
    (hnd : symbolsNodup wl) (hS : S.Nodup) :
    reorder_watchlist wl S = .error .IncompleteOrder ↔
      ((∀ s ∈ S, s ∈ wlSymbols wl) ∧ S.length ≠ wl.length) := by
  unfold reorder_watchlist
  rw [itemMapEntries_eq_self wl hnd]
  cases hfind : S.find? (fun s => ¬ wl.any (fun e => e.symbol = s)) with
  | some s0 =>
    simp only [hfind]
    constructor
    · intro h
      injection h with h'
      exact absurd h' (by intro hcon; exact WatchlistError.noConfusion hcon)
    · rintro ⟨hall, _⟩
      have hs0S : s0 ∈ S := List.mem_of_find?_eq_some hfind
      have hs0p := List.find?_some hfind
      simp only [decide_eq_true_eq] at hs0p
      exact absurd ((any_symbol_iff wl s0).mpr (hall s0 hs0S)) hs0p
  | none =>
    simp only [hfind]
    have hall : ∀ s ∈ S, s ∈ wlSymbols wl := by
      intro s hs
      have := List.find?_eq_none.mp hfind s hs
      simp only [decide_eq_true_eq, not_not] at this
      exact (any_symbol_iff wl s).mp this
    by_cases hlen : S.length ≠ wl.length
    · rw [if_pos hlen]
      exact iff_of_true rfl ⟨hall, hlen⟩
    · rw [if_neg hlen]
      exact iff_of_false (fun h => Except.noConfusion h) (fun hc => hlen hc.2)

/-- C3 witness: the amended statement at a concrete proper subset. -/
theorem c3_reorder_errors_witness :
    reorder_watchlist [⟨"AAPL", 0, none, 0⟩, ⟨"MSFT", 1, none, 0⟩] ["AAPL"] =
      .error .IncompleteOrder :=
  (c3_reorder_errors [⟨"AAPL", 0, none, 0⟩, ⟨"MSFT", 1, none, 0⟩] ["AAPL"]
    (by decide) (by decide)).mpr ⟨by decide, by decide⟩

/-- C5.  Starting from a valid watchlist (dense orders, unique symbols,
at most 50 entries), every successful add, remove, or reorder leaves the
`display_order` values exactly `{0, …, m-1}` for the new size `m` — no
gaps, no duplicates. -/
theorem c5_density_invariant (wl : List WatchlistItem)
    (hd : DenseOrders wl) (hnd : symbolsNodup wl) (hlen : wl.length ≤ 50) :
    (∀ (symbol : String) (notes : Option String) (now : ℤ) (r : List WatchlistItem),
      add_to_watchlist wl symbol notes now = .ok r → DenseOrders r) ∧
    (∀ (symbol : String) (r : List WatchlistItem),
      remove_from_watchlist wl symbol = .ok r → DenseOrders r) ∧
    (∀ (S : List String) (r : List WatchlistItem), S.Nodup →
      reorder_watchlist wl S = .ok r → DenseOrders r) := by
  have hd' : (wl.map (fun i => i.display_order)).Perm
      ((List.range wl.length).map Int.ofNat) := hd
  refine ⟨?_, ?_, ?_⟩
  · -- add
    intro symbol notes now r h
    unfold add_to_watchlist at h
    split at h
    · exact Except.noConfusion h
    · split at h
      · exact Except.noConfusion h
      · injection h with h'
        subst h'
        have hnext : wl.foldl (fun m item => max m item.display_order) (-1) + 1 =
            Int.ofNat wl.length := by
          rw [foldl_max_of_dense wl hd]
          simp only [Int.ofNat_eq_coe]
          omega
        unfold DenseOrders
        rw [List.map_append, List.length_append]
        simp only [List.map_cons, List.map_nil, List.length_cons, List.length_nil,
          Nat.zero_add, hnext]
        rw [List.range_succ, List.map_append]
        exact hd'.append_right [Int.ofNat wl.length]
  · -- remove
    intro symbol r h
    unfold remove_from_watchlist at h
    split at h
    · exact Except.noConfusion h
    · rename_i k hk
      injection h with h'
      subst h'
      obtain ⟨x, hx, hxs, hxk⟩ := lastMatchOrder_some wl symbol k hk
      subst hxs
      subst hxk
      have hperm : (x :: wl.filter (fun i => ¬ i.symbol = x.symbol)).Perm wl :=
        kept_perm wl x hnd hx
      have hordersperm :
          (x.display_order ::
            (wl.filter (fun i => ¬ i.symbol = x.symbol)).map
              (fun i => i.display_order)).Perm
            ((List.range wl.length).map Int.ofNat) := by
        have := (hperm.map (fun i => i.display_order)).trans hd'
        simpa using this
      have hmem_erase := List.cons_perm_iff_perm_erase.mp hordersperm
      obtain ⟨j, hj, hjx⟩ : ∃ j, j < wl.length ∧ Int.ofNat j = x.display_order := by
        have := hmem_erase.1
        simp only [List.mem_map, List.mem_range] at this
        obtain ⟨j, hj1, hj2⟩ := this
        exact ⟨j, hj1, hj2⟩
      have hkeptperm := hmem_erase.2
      have hlen1 : (wl.filter (fun i => ¬ i.symbol = x.symbol)).length + 1 = wl.length := by
        have := hperm.length_eq
        simpa using this
      unfold DenseOrders
      have hcomp :
          ((wl.filter (fun i => ¬ i.symbol = x.symbol)).map
            (fun i =>
              if x.display_order < i.display_order then
                { i with display_order := i.display_order - 1 }
              else i)).map (fun i => i.display_order) =
          ((wl.filter (fun i => ¬ i.symbol = x.symbol)).map
            (fun i => i.display_order)).map
            (fun o => if x.display_order < o then o - 1 else o) := by
        rw [List.map_map, List.map_map]
        apply List.map_congr_left
        intro i _
        simp only [Function.comp_apply]
        by_cases hio : x.display_order < i.display_order
        · rw [if_pos hio, if_pos hio]
        · rw [if_neg hio, if_neg hio]
      rw [hcomp, List.length_map]
      have hlen2 : (wl.filter (fun i => ¬ i.symbol = x.symbol)).length =
          wl.length - 1 := by omega
      rw [hlen2]
      rw [← hjx] at hkeptperm ⊢
      have hstep := hkeptperm.map (fun o => if Int.ofNat j < o then o - 1 else o)
      refine hstep.trans ?_
      rw [erase_decrement_range wl.length j hj]
  · -- reorder
    intro S r hS h
    unfold reorder_watchlist at h
    rw [itemMapEntries_eq_self wl hnd] at h
    cases hfind : S.find? (fun s => ¬ wl.any (fun e => e.symbol = s)) with
    | some s0 =>
      simp only [hfind] at h
      exact Except.noConfusion h
    | none =>
      simp only [hfind] at h
      split at h
      · exact Except.noConfusion h
      · rename_i hlen2
        injection h with h'
        subst h'
        have hlenSw : S.length = wl.length := by
          by_contra hcon
          exact hlen2 hcon
        have hsub : S ⊆ wlSymbols wl := by
          intro s hs
          have := List.find?_eq_none.mp hfind s hs
          simp only [decide_eq_true_eq, not_not] at this
          exact (any_symbol_iff wl s).mp this
        have hSperm : S.Perm (wlSymbols wl) := by
          refine (List.subperm_of_subset hS hsub).perm_of_length_le ?_
          simp only [wlSymbols, List.length_map]
          omega
        have hmemS : ∀ i ∈ wl, i.symbol ∈ S := by
          intro i hi
          rw [hSperm.mem_iff]
          exact List.mem_map_of_mem (fun it => it.symbol) hi
        rw [assignOrders_eq_map S hS wl 0]
        unfold DenseOrders
        rw [List.length_map]
        have hsel : (wl.map (fun i =>
            if i.symbol ∈ S then
              { i with display_order := Int.ofNat (0 + S.indexOf i.symbol) }
            else i)).map (fun i => i.display_order) =
            wl.map (fun i => Int.ofNat (S.indexOf i.symbol)) := by
          rw [List.map_map]
          apply List.map_congr_left
          intro i hi
          simp only [Function.comp_apply, if_pos (hmemS i hi), Nat.zero_add]
        rw [hsel]
        have hfactor : wl.map (fun i => Int.ofNat (S.indexOf i.symbol)) =
            (wlSymbols wl).map (fun s => Int.ofNat (S.indexOf s)) := by
          simp [wlSymbols, List.map_map, Function.comp]
        rw [hfactor]
        refine (hSperm.symm.map (fun s => Int.ofNat (S.indexOf s))).trans ?_
        have hcompose : S.map (fun s => Int.ofNat (S.indexOf s)) =
            (S.map (fun s => S.indexOf s)).map Int.ofNat := by
          rw [List.map_map]; rfl
        rw [hcompose, map_indexOf_self S hS, hlenSw]

/-- C5 witness: a dense single-entry watchlist stays dense after a
successful add. -/
theorem c5_density_invariant_witness :
    add_to_watchlist [⟨"AAPL", 0, none, 0⟩] "MSFT" none 5 =
      .ok [⟨"AAPL", 0, none, 0⟩, ⟨"MSFT", 1, none, 5⟩] ∧
    DenseOrders [⟨"AAPL", 0, none, 0⟩, ⟨"MSFT", 1, none, 5⟩] :=
  ⟨rfl,
   (c5_density_invariant [⟨"AAPL", 0, none, 0⟩] (by decide) (by decide)
     (by decide)).1 "MSFT" none 5 [⟨"AAPL", 0, none, 0⟩, ⟨"MSFT", 1, none, 5⟩] rfl⟩

/-- C6.  Successfully removing the entry at order `k` from a valid
watchlist yields exactly the other entries with every entry previously
ordered above `k` decremented by one (all other fields intact), every
entry previously below `k` entirely unchanged, and the size reduced by
one. -/
theorem c6_compaction (wl : List WatchlistItem) (symbol : String) (k : ℤ)
    (r : List WatchlistItem) (hnd : symbolsNodup wl)
    (hk : lastMatchOrder wl symbol = some k)
    (h : remove_from_watchlist wl symbol = .ok r) :
    r = (wl.filter (fun i => ¬ i.symbol = symbol)).map
        (fun i => if k < i.display_order then
          { i with display_order := i.display_order - 1 } else i) ∧
    (∀ i ∈ wl, i.symbol ≠ symbol → k < i.display_order →
      { i with display_order := i.display_order - 1 } ∈ r) ∧
    (∀ i ∈ wl, i.symbol ≠ symbol → i.display_order < k → i ∈ r) ∧
    r.length + 1 = wl.length := by
  unfold remove_from_watchlist at h
  rw [hk] at h
  simp only [] at h
  injection h with h'
  subst h'
  have hmem_kept : ∀ i ∈ wl, i.symbol ≠ symbol →
      i ∈ wl.filter (fun i => ¬ i.symbol = symbol) := by
    intro i hi hne
    rw [List.mem_filter]
    exact ⟨hi, by simpa using hne⟩
  refine ⟨rfl, ?_, ?_, ?_⟩
  · intro i hi hne hgt
    refine List.mem_map.mpr ⟨i, hmem_kept i hi hne, ?_⟩
    rw [if_pos hgt]
  · intro i hi hne hlt
    refine List.mem_map.mpr ⟨i, hmem_kept i hi hne, ?_⟩
    rw [if_neg (by omega)]
  · obtain ⟨x, hx, hxs, hxk⟩ := lastMatchOrder_some wl symbol k hk
    subst hxs
    have hperm : (x :: wl.filter (fun i => ¬ i.symbol = x.symbol)).Perm wl :=
      kept_perm wl x hnd hx
    have := hperm.length_eq
    simp only [List.length_cons, List.length_map] at this ⊢
    omega

/-- C6 witness: removing the middle entry (order 1) of a three-entry
watchlist decrements only the entry above it. -/
theorem c6_compaction_witness :
    remove_from_watchlist
        [⟨"AAPL", 0, none, 0⟩, ⟨"MSFT", 1, none, 0⟩, ⟨"GOOG", 2, none, 0⟩] "MSFT" =
      .ok [⟨"AAPL", 0, none, 0⟩, ⟨"GOOG", 1, none, 0⟩] ∧
    ([⟨"AAPL", 0, none, 0⟩, ⟨"GOOG", 1, none, 0⟩] : List WatchlistItem).length + 1 =
      ([⟨"AAPL", 0, none, 0⟩, ⟨"MSFT", 1, none, 0⟩,
        ⟨"GOOG", 2, none, 0⟩] : List WatchlistItem).length :=
  ⟨rfl,
   (c6_compaction
     [⟨"AAPL", 0, none, 0⟩, ⟨"MSFT", 1, none, 0⟩, ⟨"GOOG", 2, none, 0⟩] "MSFT" 1
     [⟨"AAPL", 0, none, 0⟩, ⟨"GOOG", 1, none, 0⟩] (by decide) rfl rfl).2.2.2⟩
